import Mathlib

/-!
Shallow embedding of the `aud` saga library (src/src/lib.rs).

The Rust code threads an accumulator of type `T` through a list of
`Adventure`s (steps), each a pair of a fallible `forward` function and a
total `backward` function.  On a forward failure the engine runs the
`backward` functions from the failing index down to 0.  The type-erased
`Box<Error>` payload is modelled by an opaque type parameter `E`.  The
unguarded vector indexing `saga[i]` (which would abort the Rust program
when out of bounds) is modelled by `List.get?`, with an out-of-bounds
access surfacing as `none` in an `Option`-valued result.
-/

/-- Rust `Failure<T>`: an error together with the accumulator at the point
of failure (`struct Failure<T> { error: Box<Error>, acc: T }`). -/
structure Failure (E T : Type) where
  error : E
  acc : T
deriving Repr, DecidableEq

/-- Rust `Adventure<T>`: a forward step that may fail and a total backward
step. -/
structure Adventure (E T : Type) where
  forward : T → Except (Failure E T) T
  backward : T → T

/-- Rust `Saga<T>`: an ordered list of adventures. -/
structure Saga (E T : Type) where
  adventures : List (Adventure E T)

/-- Rust `Adventure::new`. -/
def Adventure.new (forward : T → Except (Failure E T) T) (backward : T → T) :
    Adventure E T :=
  { forward := forward, backward := backward }

/-- Rust `Saga::new`. -/
def Saga.new (adventures : List (Adventure E T)) : Saga E T :=
  { adventures := adventures }

/-- Rust `revert`: apply `backward` of the step at index `i` to `acc`; stop
at index 0, otherwise recurse at `i - 1`.  `none` models the abort of an
out-of-bounds `saga[i]`. -/
def revert (saga : List (Adventure E T)) (error : E) :
    Nat → T → Option (Failure E T)
  | i, acc =>
    match saga.get? i with
    | none => none
    | some adv =>
      let acc1 := adv.backward acc
      match i with
      | 0 => some { error := error, acc := acc1 }
      | j + 1 => revert saga error j acc1

/-- Rust `tell_`: if `i >= saga.len()` succeed with `acc`; otherwise run the
forward step at `i`, advancing on success and switching to `revert` at the
same index `i` with the failure's accumulator on failure. -/
def tell_ (saga : List (Adventure E T)) (i : Nat) (acc : T) :
    Option (Except (Failure E T) T) :=
  if _h : saga.length ≤ i then
    some (Except.ok acc)
  else
    match saga.get? i with
    | none => none
    | some adv =>
      match adv.forward acc with
      | Except.ok acc1 => tell_ saga (i + 1) acc1
      | Except.error f => (revert saga f.error i f.acc).map Except.error
termination_by saga.length - i
decreasing_by simp_wf; omega

/-- Rust `Saga::tell`. -/
def Saga.tell (s : Saga E T) (acc : T) : Option (Except (Failure E T) T) :=
  tell_ s.adventures 0 acc

/-! ### Instrumented (trace-producing) variants

The claims speak about which forward/backward operations are invoked and in
which order.  `revertT` and `tellT_` are the same functions as `revert` and
`tell_` but additionally record the sequence of operation invocations; their
first components are proved to coincide with the plain functions. -/

/-- An observable invocation: the forward or backward operation of the step
at a given index. -/
inductive Ev : Type where
  | fwd (i : Nat)
  | bwd (i : Nat)
deriving Repr, DecidableEq

/-- Index of a forward event. -/
def Ev.fwdIdx : Ev → Option Nat
  | .fwd i => some i
  | .bwd _ => none

/-- Index of a backward event. -/
def Ev.bwdIdx : Ev → Option Nat
  | .bwd i => some i
  | .fwd _ => none

/-- `revert`, also returning the invocation trace. -/
def revertT (saga : List (Adventure E T)) (error : E) :
    Nat → T → Option (Failure E T) × List Ev
  | i, acc =>
    match saga.get? i with
    | none => (none, [])
    | some adv =>
      let acc1 := adv.backward acc
      match i with
      | 0 => (some { error := error, acc := acc1 }, [Ev.bwd 0])
      | j + 1 =>
        let r := revertT saga error j acc1
        (r.1, Ev.bwd (j + 1) :: r.2)

/-- `tell_`, also returning the invocation trace. -/
def tellT_ (saga : List (Adventure E T)) (i : Nat) (acc : T) :
    Option (Except (Failure E T) T) × List Ev :=
  if _h : saga.length ≤ i then
    (some (Except.ok acc), [])
  else
    match saga.get? i with
    | none => (none, [])
    | some adv =>
      match adv.forward acc with
      | Except.ok acc1 =>
        let r := tellT_ saga (i + 1) acc1
        (r.1, Ev.fwd i :: r.2)
      | Except.error f =>
        let r := revertT saga f.error i f.acc
        (r.1.map Except.error, Ev.fwd i :: r.2)
termination_by saga.length - i
decreasing_by simp_wf; omega

/-! ### Specification-side helper functions -/

/-- The backward operation of the step at index `i` (identity when `i` is
out of bounds, a case that never arises in the proofs below). -/
def backAt (saga : List (Adventure E T)) (i : Nat) (acc : T) : T :=
  match saga.get? i with
  | none => acc
  | some adv => adv.backward acc

/-- Chained compensation: apply the backward operations of steps
`i, i-1, ..., 0`, the output of each being the sole input to the next. -/
def compFold (saga : List (Adventure E T)) : Nat → T → T
  | 0, acc => backAt saga 0 acc
  | j + 1, acc => compFold saga j (backAt saga (j + 1) acc)

/-- One successful forward step at index `m` (`none` when the index is out
of bounds or the step fails). -/
def stepAt (saga : List (Adventure E T)) (m : Nat) (a : T) : Option T :=
  match saga.get? m with
  | none => none
  | some adv =>
    match adv.forward a with
    | Except.ok b => some b
    | Except.error _ => none

/-- Run `j` consecutive successful forward steps starting at index `i`. -/
def runFrom (saga : List (Adventure E T)) : Nat → T → Nat → Option T
  | _, acc, 0 => some acc
  | i, acc, j + 1 =>
    match stepAt saga i acc with
    | none => none
    | some b => runFrom saga (i + 1) b j

/-- Steps `0 .. k-1` succeed from initial accumulator `acc` and the forward
operation of step `k` then fails with failure `f`. -/
def FailsAt (saga : List (Adventure E T)) (acc : T) (k : Nat)
    (f : Failure E T) : Prop :=
  ∃ a adv, runFrom saga 0 acc k = some a ∧ saga.get? k = some adv ∧
    adv.forward a = Except.error f

/-- The composed forward effect of a saga: the forward effect of step `n-1`
after ... after the forward effect of step `0` (on the success branch). -/
def fwdEffect (saga : List (Adventure E T)) (x : T) : T :=
  saga.foldl
    (fun a adv =>
      match adv.forward a with
      | Except.ok b => b
      | Except.error _ => a) x

/-! ### The concrete sagas of the test module -/

/-- Rust test `StupidError`. -/
structure StupidError where
  stupid : Bool
deriving Repr, DecidableEq

/-- Rust test `inc2`: add one, but fail (with the incremented accumulator)
once the accumulator has reached 2. -/
def inc2 (i : Int) : Except (Failure StupidError Int) Int :=
  if i ≥ 2 then
    Except.error { error := { stupid := true }, acc := i + 1 }
  else
    Except.ok (i + 1)

/-- Rust test `dec`: subtract one. -/
def dec (i : Int) : Int :=
  i - 1

/-- The two-step saga of the `good_sage` test. -/
def goodSaga : Saga StupidError Int :=
  Saga.new [Adventure.new inc2 dec, Adventure.new inc2 dec]

/-- The three-step saga of the `bad_sage` test. -/
def badSaga : Saga StupidError Int :=
  Saga.new [Adventure.new inc2 dec, Adventure.new inc2 dec,
    Adventure.new inc2 dec]

/-- The `inc2` of the crate-level doc example: always succeeds, adding one. -/
def docInc2 (i : Int) : Except (Failure StupidError Int) Int :=
  Except.ok (i + 1)

/-- The two-step saga of the crate-level doc example. -/
def docSaga : Saga StupidError Int :=
  Saga.new [Adventure.new docInc2 dec, Adventure.new docInc2 dec]

/-! ### Basic index lemmas -/

theorem get?_of_lt (saga : List (Adventure E T)) {i : Nat}
    (h : i < saga.length) : ∃ adv, saga.get? i = some adv := by
  rw [List.get?_eq_getElem?]
  exact ⟨saga[i], List.getElem?_eq_getElem h⟩

theorem lt_of_get? (saga : List (Adventure E T)) {i : Nat}
    {adv : Adventure E T} (h : saga.get? i = some adv) : i < saga.length := by
  rw [List.get?_eq_getElem?] at h
  exact (List.getElem?_eq_some.mp h).1

/-! ### Characterization of revert -/

theorem revert_eq (saga : List (Adventure E T)) (e : E) :
    ∀ (i : Nat), i < saga.length → ∀ (acc : T),
      revert saga e i acc = some { error := e, acc := compFold saga i acc } := by
  intro i
  induction i with
  | zero =>
    intro h acc
    obtain ⟨adv, hadv⟩ := get?_of_lt saga h
    rw [List.get?_eq_getElem?] at hadv
    simp [revert, hadv, compFold, backAt]
  | succ j ih =>
    intro h acc
    obtain ⟨adv, hadv⟩ := get?_of_lt saga h
    rw [List.get?_eq_getElem?] at hadv
    rw [revert]
    simp only [List.get?_eq_getElem?, hadv]
    rw [ih (Nat.lt_of_succ_lt h)]
    simp [compFold, backAt, hadv]

theorem revertT_eq (saga : List (Adventure E T)) (e : E) :
    ∀ (i : Nat), i < saga.length → ∀ (acc : T),
      revertT saga e i acc =
        (some { error := e, acc := compFold saga i acc },
          ((List.range (i + 1)).reverse).map Ev.bwd) := by
  intro i
  induction i with
  | zero =>
    intro h acc
    obtain ⟨adv, hadv⟩ := get?_of_lt saga h
    rw [List.get?_eq_getElem?] at hadv
    simp [revertT, hadv, compFold, backAt, List.range_succ]
  | succ j ih =>
    intro h acc
    obtain ⟨adv, hadv⟩ := get?_of_lt saga h
    rw [List.get?_eq_getElem?] at hadv
    rw [revertT]
    simp only [List.get?_eq_getElem?, hadv]
    rw [ih (Nat.lt_of_succ_lt h)]
    simp [compFold, backAt, hadv, List.range_succ]

/-! ### The traced run agrees with the plain run -/

theorem tellT_fst_aux (saga : List (Adventure E T)) :
    ∀ (n i : Nat) (acc : T), saga.length - i ≤ n →
      (tellT_ saga i acc).1 = tell_ saga i acc := by
  intro n
  induction n with
  | zero =>
    intro i acc h
    have hi : saga.length ≤ i := by omega
    rw [tellT_, tell_]
    simp [hi]
  | succ n ih =>
    intro i acc h
    by_cases hi : saga.length ≤ i
    · rw [tellT_, tell_]
      simp [hi]
    · have hlt : i < saga.length := by omega
      obtain ⟨adv, hadv⟩ := get?_of_lt saga hlt
      rw [List.get?_eq_getElem?] at hadv
      rw [tellT_, tell_]
      simp only [hi, dite_false, List.get?_eq_getElem?, hadv]
      cases hf : adv.forward acc with
      | ok acc1 =>
        dsimp only
        exact ih (i + 1) acc1 (by omega)
      | error f =>
        dsimp only
        rw [revertT_eq saga f.error i hlt, revert_eq saga f.error i hlt]

theorem tellT_fst (saga : List (Adventure E T)) (i : Nat) (acc : T) :
    (tellT_ saga i acc).1 = tell_ saga i acc :=
  tellT_fst_aux saga (saga.length - i) i acc (Nat.le_refl _)

/-! ### The failure path -/

theorem tellT_fail (saga : List (Adventure E T)) :
    ∀ (j i : Nat) (acc a : T) (adv : Adventure E T) (f : Failure E T),
      runFrom saga i acc j = some a → saga.get? (i + j) = some adv →
      adv.forward a = Except.error f →
      tellT_ saga i acc =
        ((revert saga f.error (i + j) f.acc).map Except.error,
          (List.range' i (j + 1)).map Ev.fwd ++
            ((List.range (i + j + 1)).reverse).map Ev.bwd) := by
  intro j
  induction j with
  | zero =>
    intro i acc a adv f hrun hget hf
    simp only [runFrom] at hrun
    injection hrun with h
    subst h
    rw [Nat.add_zero] at hget
    have hlt : i < saga.length := lt_of_get? saga hget
    have hi : ¬ saga.length ≤ i := by omega
    rw [List.get?_eq_getElem?] at hget
    rw [tellT_]
    simp only [hi, dite_false, List.get?_eq_getElem?, hget, hf]
    rw [revertT_eq saga f.error i hlt]
    simp [revert_eq saga f.error i hlt, List.range'_one]
  | succ j ih =>
    intro i acc a adv f hrun hget hf
    cases hstep : stepAt saga i acc with
    | none =>
      simp only [runFrom, hstep] at hrun
      exact Option.noConfusion hrun
    | some b =>
      simp only [runFrom, hstep] at hrun
      simp only [stepAt] at hstep
      cases hadv0 : saga.get? i with
      | none =>
        simp only [hadv0] at hstep
        exact Option.noConfusion hstep
      | some adv0 =>
        simp only [hadv0] at hstep
        cases hf0 : adv0.forward acc with
        | error f0 =>
          simp only [hf0] at hstep
          exact Option.noConfusion hstep
        | ok b0 =>
          simp only [hf0] at hstep
          injection hstep with hb
          subst hb
          have hgetih : saga.get? ((i + 1) + j) = some adv := by
            have e : i + (j + 1) = (i + 1) + j := by omega
            rw [e] at hget
            exact hget
          have hih := ih (i + 1) b0 a adv f hrun hgetih hf
          have hlt : i < saga.length := lt_of_get? saga hadv0
          have hi : ¬ saga.length ≤ i := by omega
          rw [List.get?_eq_getElem?] at hadv0
          rw [tellT_]
          simp only [hi, dite_false, List.get?_eq_getElem?, hadv0, hf0]
          rw [hih]
          have e : i + (j + 1) = (i + 1) + j := by omega
          rw [e]
          simp [List.range'_succ]

/-! ### The success path -/

theorem tellT_success (saga : List (Adventure E T)) :
    ∀ (j i : Nat) (acc a : T), saga.length = i + j →
      runFrom saga i acc j = some a →
      tellT_ saga i acc = (some (Except.ok a), (List.range' i j).map Ev.fwd) := by
  intro j
  induction j with
  | zero =>
    intro i acc a hlen hrun
    simp only [runFrom] at hrun
    injection hrun with h
    subst h
    have hi : saga.length ≤ i := by omega
    rw [tellT_]
    simp [hi]
  | succ j ih =>
    intro i acc a hlen hrun
    cases hstep : stepAt saga i acc with
    | none =>
      simp only [runFrom, hstep] at hrun
      exact Option.noConfusion hrun
    | some b =>
      simp only [runFrom, hstep] at hrun
      simp only [stepAt] at hstep
      cases hadv0 : saga.get? i with
      | none =>
        simp only [hadv0] at hstep
        exact Option.noConfusion hstep
      | some adv0 =>
        simp only [hadv0] at hstep
        cases hf0 : adv0.forward acc with
        | error f0 =>
          simp only [hf0] at hstep
          exact Option.noConfusion hstep
        | ok b0 =>
          simp only [hf0] at hstep
          injection hstep with hb
          subst hb
          have hih := ih (i + 1) b0 a (by omega) hrun
          have hi : ¬ saga.length ≤ i := by omega
          rw [List.get?_eq_getElem?] at hadv0
          rw [tellT_]
          simp only [hi, dite_false, List.get?_eq_getElem?, hadv0, hf0]
          rw [hih]
          simp [List.range'_succ]

/-! ### Every run either succeeds after running all steps or fails at some
index -/

theorem tell_cases_aux (saga : List (Adventure E T)) :
    ∀ (n i : Nat) (acc : T), saga.length - i ≤ n → i ≤ saga.length →
      (∃ j a, saga.length = i + j ∧ runFrom saga i acc j = some a ∧
        tell_ saga i acc = some (Except.ok a)) ∨
      (∃ j a adv f, runFrom saga i acc j = some a ∧
        saga.get? (i + j) = some adv ∧ adv.forward a = Except.error f ∧
        tell_ saga i acc =
          (revert saga f.error (i + j) f.acc).map Except.error) := by
  intro n
  induction n with
  | zero =>
    intro i acc h hile
    have hi : saga.length ≤ i := by omega
    left
    refine ⟨0, acc, by omega, rfl, ?_⟩
    rw [tell_]
    simp [hi]
  | succ n ih =>
    intro i acc h hile
    by_cases hi : saga.length ≤ i
    · left
      refine ⟨0, acc, by omega, rfl, ?_⟩
      rw [tell_]
      simp [hi]
    · have hlt : i < saga.length := by omega
      obtain ⟨adv0, hadv0⟩ := get?_of_lt saga hlt
      have hstep0 : saga.get? i = some adv0 := hadv0
      rw [List.get?_eq_getElem?] at hadv0
      cases hf0 : adv0.forward acc with
      | ok b0 =>
        have hunf : tell_ saga i acc = tell_ saga (i + 1) b0 := by
          rw [tell_]
          simp [hi, hadv0, hf0]
        have hstep : stepAt saga i acc = some b0 := by
          simp [stepAt, hadv0, hf0]
        rcases ih (i + 1) b0 (by omega) (by omega) with ⟨j, a, hle, hrun, htell⟩ |
          ⟨j, a, adv, f, hrun, hget, hf, htell⟩
        · left
          refine ⟨j + 1, a, by omega, ?_, by rw [hunf]; exact htell⟩
          simp [runFrom, hstep, hrun]
        · right
          refine ⟨j + 1, a, adv, f, ?_, ?_, hf, ?_⟩
          · simp [runFrom, hstep, hrun]
          · have e : i + (j + 1) = (i + 1) + j := by omega
            rw [e]
            exact hget
          · have e : i + (j + 1) = (i + 1) + j := by omega
            rw [e, hunf]
            exact htell
      | error f0 =>
        right
        refine ⟨0, acc, adv0, f0, rfl, by simpa using hstep0, hf0, ?_⟩
        rw [tell_]
        simp [hi, hadv0, hf0]

theorem tell_cases (saga : List (Adventure E T)) (acc : T) :
    (∃ a, runFrom saga 0 acc saga.length = some a ∧
      tell_ saga 0 acc = some (Except.ok a)) ∨
    (∃ k f, FailsAt saga acc k f ∧
      tell_ saga 0 acc = (revert saga f.error k f.acc).map Except.error) := by
  rcases tell_cases_aux saga saga.length 0 acc (by omega) (by omega) with
    ⟨j, a, hle, hrun, htell⟩ | ⟨j, a, adv, f, hrun, hget, hf, htell⟩
  · refine Or.inl ⟨a, ?_, htell⟩
    have hj : j = saga.length := by omega
    rw [hj] at hrun
    exact hrun
  · refine Or.inr ⟨j, f, ⟨a, adv, hrun, by simpa using hget, hf⟩, ?_⟩
    simpa using htell

/-! ### Peeling the last step off a forward run -/

theorem runFrom_snoc (saga : List (Adventure E T)) :
    ∀ (j i : Nat) (acc : T),
      runFrom saga i acc (j + 1) =
        (runFrom saga i acc j).bind (stepAt saga (i + j)) := by
  intro j
  induction j with
  | zero =>
    intro i acc
    cases hstep : stepAt saga i acc with
    | none => simp [runFrom, hstep]
    | some b => simp [runFrom, hstep]
  | succ j ih =>
    intro i acc
    cases hstep : stepAt saga i acc with
    | none => simp [runFrom, hstep]
    | some b =>
      have h1 : runFrom saga i acc (j + 1 + 1) = runFrom saga (i + 1) b (j + 1) := by
        simp only [runFrom, hstep]
      have h2 : runFrom saga i acc (j + 1) = runFrom saga (i + 1) b j := by
        simp only [runFrom, hstep]
      rw [h1, h2, ih (i + 1) b]
      have e : (i + 1) + j = i + (j + 1) := by omega
      rw [e]

/-! ### Round-trip cancellation -/

/-- Every step's backward operation undoes both the success effect and the
failure-branch effect of its forward operation. -/
def InverseSteps (saga : List (Adventure E T)) : Prop :=
  ∀ i adv, saga.get? i = some adv →
    (∀ a b, adv.forward a = Except.ok b → adv.backward b = a) ∧
    (∀ a f, adv.forward a = Except.error f → adv.backward f.acc = a)

theorem compFold_inverse (saga : List (Adventure E T))
    (hinv : InverseSteps saga) (x : T) :
    ∀ (k : Nat) (a : T), runFrom saga 0 x k = some a →
      ∀ v, backAt saga k v = a → compFold saga k v = x := by
  intro k
  induction k with
  | zero =>
    intro a hrun v hback
    simp only [runFrom] at hrun
    injection hrun with h
    subst h
    simp only [compFold]
    exact hback
  | succ j ih =>
    intro a hrun v hback
    rw [runFrom_snoc] at hrun
    cases hr : runFrom saga 0 x j with
    | none =>
      rw [hr] at hrun
      exact Option.noConfusion hrun
    | some a0 =>
      rw [hr] at hrun
      rw [Nat.zero_add] at hrun
      simp only [Option.some_bind, stepAt] at hrun
      cases hadv : saga.get? j with
      | none =>
        simp only [hadv] at hrun
        exact Option.noConfusion hrun
      | some advj =>
        simp only [hadv] at hrun
        cases hfj : advj.forward a0 with
        | error f0 =>
          simp only [hfj] at hrun
          exact Option.noConfusion hrun
        | ok b =>
          simp only [hfj] at hrun
          injection hrun with hb
          subst hb
          have hbw := (hinv j advj hadv).1 a0 b hfj
          simp only [compFold]
          refine ih a0 hr (backAt saga (j + 1) v) ?_
          rw [hback]
          simp only [backAt, hadv]
          exact hbw

/-! ### When every forward operation succeeds -/

theorem tell_allOk_aux (saga : List (Adventure E T))
    (hok : ∀ adv ∈ saga, ∀ a, ∃ b, adv.forward a = Except.ok b) :
    ∀ (n i : Nat) (acc : T), saga.length - i ≤ n →
      tell_ saga i acc = some (Except.ok (fwdEffect (List.drop i saga) acc)) := by
  intro n
  induction n with
  | zero =>
    intro i acc h
    have hi : saga.length ≤ i := by omega
    rw [tell_]
    simp [hi, List.drop_eq_nil_of_le hi, fwdEffect]
  | succ n ih =>
    intro i acc h
    by_cases hi : saga.length ≤ i
    · rw [tell_]
      simp [hi, List.drop_eq_nil_of_le hi, fwdEffect]
    · have hlt : i < saga.length := by omega
      have hdrop : List.drop i saga = saga[i] :: List.drop (i + 1) saga :=
        List.drop_eq_getElem_cons hlt
      have hmem : saga[i] ∈ saga := List.getElem_mem hlt
      obtain ⟨b, hb⟩ := hok saga[i] hmem acc
      have hget : saga[i]? = some saga[i] := List.getElem?_eq_getElem hlt
      rw [tell_]
      simp only [hi, dite_false, List.get?_eq_getElem?, hget, hb]
      rw [ih (i + 1) b (by omega), hdrop]
      simp only [fwdEffect, List.foldl_cons, hb]

/-! ### Consequences of a failure at index k -/

theorem tellT_of_failsAt (saga : List (Adventure E T)) (acc : T) (k : Nat)
    (f : Failure E T) (h : FailsAt saga acc k f) :
    tellT_ saga 0 acc =
      (some (Except.error { error := f.error, acc := compFold saga k f.acc }),
        (List.range (k + 1)).map Ev.fwd ++
          ((List.range (k + 1)).reverse).map Ev.bwd) := by
  obtain ⟨a, adv, hrun, hget, hf⟩ := h
  have hlt : k < saga.length := lt_of_get? saga hget
  have hget0 : saga.get? (0 + k) = some adv := by simpa using hget
  have hfail := tellT_fail saga k 0 acc a adv f hrun hget0 hf
  rw [hfail]
  simp only [Nat.zero_add]
  rw [revert_eq saga f.error k hlt]
  simp [← List.range_eq_range']

theorem tell_of_failsAt (saga : List (Adventure E T)) (acc : T) (k : Nat)
    (f : Failure E T) (h : FailsAt saga acc k f) :
    tell_ saga 0 acc =
      some (Except.error { error := f.error, acc := compFold saga k f.acc }) := by
  have h1 := tellT_of_failsAt saga acc k f h
  have h2 := tellT_fst saga 0 acc
  rw [h1] at h2
  exact h2.symm

/-! ### Extracting indices from traces -/

theorem filterMap_fwdIdx_fwd (l : List Nat) :
    (l.map Ev.fwd).filterMap Ev.fwdIdx = l := by
  induction l with
  | nil => rfl
  | cons x xs ih => simp [Ev.fwdIdx, ih]

theorem filterMap_fwdIdx_bwd (l : List Nat) :
    (l.map Ev.bwd).filterMap Ev.fwdIdx = [] := by
  induction l with
  | nil => rfl
  | cons x xs ih => simp [Ev.fwdIdx, ih]

theorem filterMap_bwdIdx_fwd (l : List Nat) :
    (l.map Ev.fwd).filterMap Ev.bwdIdx = [] := by
  induction l with
  | nil => rfl
  | cons x xs ih => simp [Ev.bwdIdx, ih]

theorem filterMap_bwdIdx_bwd (l : List Nat) :
    (l.map Ev.bwd).filterMap Ev.bwdIdx = l := by
  induction l with
  | nil => rfl
  | cons x xs ih => simp [Ev.bwdIdx, ih]

/-! ### Facts about the concrete sagas -/

theorem goodSaga_eval : Saga.tell goodSaga 0 = some (Except.ok 2) := by
  rw [Saga.tell]
  rw [tell_]
  norm_num [goodSaga, Saga.new, Adventure.new, inc2]
  rw [tell_]
  norm_num [goodSaga, Saga.new, Adventure.new, inc2]
  rw [tell_]
  norm_num [goodSaga, Saga.new]

theorem badSaga_eval :
    Saga.tell badSaga 0 =
      some (Except.error { error := { stupid := true }, acc := 0 }) := by
  rw [Saga.tell]
  rw [tell_]
  norm_num [badSaga, Saga.new, Adventure.new, inc2]
  rw [tell_]
  norm_num [badSaga, Saga.new, Adventure.new, inc2]
  rw [tell_]
  norm_num [badSaga, Saga.new, Adventure.new, inc2, revert, dec]

theorem badSaga_failsAt :
    FailsAt badSaga.adventures 0 2
      { error := { stupid := true }, acc := 3 } := by
  refine ⟨2, Adventure.new inc2 dec, ?_, rfl, ?_⟩
  · decide
  · rfl

theorem inc2_ok_inverse (a b : Int) (h : inc2 a = Except.ok b) : dec b = a := by
  by_cases ha : a ≥ 2
  · simp [inc2, ha] at h
  · simp [inc2, ha] at h
    simp [dec, ← h]

theorem inc2_err_inverse (a : Int) (f : Failure StupidError Int)
    (h : inc2 a = Except.error f) : dec f.acc = a := by
  by_cases ha : a ≥ 2
  · simp [inc2, ha] at h
    rw [← h]
    simp [dec]
  · simp [inc2, ha] at h

theorem badSaga_inverse : InverseSteps badSaga.adventures := by
  intro i adv hget
  have hlt : i < 3 := by
    simpa [badSaga, Saga.new] using lt_of_get? _ hget
  have hadv : adv = Adventure.new inc2 dec := by
    interval_cases i <;> simpa [badSaga, Saga.new] using hget.symm
  subst hadv
  constructor
  · intro a b h
    exact inc2_ok_inverse a b h
  · intro a f h
    exact inc2_err_inverse a f h

theorem docSaga_allOk :
    ∀ adv ∈ docSaga.adventures, ∀ a, ∃ b, adv.forward a = Except.ok b := by
  intro adv hmem a
  simp [docSaga, Saga.new, Adventure.new] at hmem
  subst hmem
  exact ⟨a + 1, rfl⟩

/-! ### The claims -/

/-- Claim C1: if the forward operation of step k fails (steps 0..k-1 having
succeeded), exactly the backward operations of steps k, k-1, ..., 0 are
invoked, in strictly decreasing order, each exactly once, the output of each
backward call being the sole input to the next (the chained compFold), and
no step with index greater than k has its backward (or a second forward)
invoked: the complete invocation trace is forwards 0..k followed by
backwards k..0. -/
theorem saga_failure_compensates_all (saga : List (Adventure E T)) (acc : T)
    (k : Nat) (f : Failure E T) (h : FailsAt saga acc k f) :
    tellT_ saga 0 acc =
      (some (Except.error { error := f.error, acc := compFold saga k f.acc }),
        (List.range (k + 1)).map Ev.fwd ++
          ((List.range (k + 1)).reverse).map Ev.bwd) :=
  tellT_of_failsAt saga acc k f h

/-- Witness for claim C1 at the bad_sage saga, which fails at index 2. -/
theorem saga_failure_compensates_all_witness :
    tellT_ badSaga.adventures 0 0 =
      (some (Except.error { error := { stupid := true }, acc := 0 }),
        [Ev.fwd 0, Ev.fwd 1, Ev.fwd 2, Ev.bwd 2, Ev.bwd 1, Ev.bwd 0]) := by
  have h := saga_failure_compensates_all badSaga.adventures 0 2
    { error := { stupid := true }, acc := 3 } badSaga_failsAt
  rw [h]
  norm_num [compFold, backAt, badSaga, Saga.new, Adventure.new, dec,
    List.range_succ]

/-- Claim C2: a forward failure at index i carrying (error, acc') transitions
immediately into compensation at the same index i (not i-1) with acc' as the
entry value: the result is revert at index i on acc', the first backward
event in the trace is that of step i, and the first backward call applies
step i's backward operation to acc'. -/
theorem saga_compensation_starts_at_failing_index
    (saga : List (Adventure E T)) (acc : T) (i : Nat) (f : Failure E T)
    (h : FailsAt saga acc i f) :
    tell_ saga 0 acc = (revert saga f.error i f.acc).map Except.error ∧
    (tellT_ saga 0 acc).2 =
      (List.range (i + 1)).map Ev.fwd ++
        Ev.bwd i :: ((List.range i).reverse).map Ev.bwd ∧
    (∃ adv, saga.get? i = some adv ∧
      revert saga f.error i f.acc =
        (match i with
         | 0 => some { error := f.error, acc := adv.backward f.acc }
         | j + 1 => revert saga f.error j (adv.backward f.acc))) := by
  obtain ⟨a, adv, hrun, hget, hf⟩ := h
  have hlt : i < saga.length := lt_of_get? saga hget
  refine ⟨?_, ?_, adv, hget, ?_⟩
  · rw [tell_of_failsAt saga acc i f ⟨a, adv, hrun, hget, hf⟩,
      revert_eq saga f.error i hlt]
    rfl
  · rw [tellT_of_failsAt saga acc i f ⟨a, adv, hrun, hget, hf⟩]
    simp [List.range_succ]
  · rw [revert]
    simp only [hget]
    cases i <;> rfl

/-- Witness for claim C2 at the bad_sage saga, which fails at index 2. -/
theorem saga_compensation_starts_at_failing_index_witness :
    tell_ badSaga.adventures 0 0 =
      (revert badSaga.adventures { stupid := true } 2 3).map Except.error ∧
    (tellT_ badSaga.adventures 0 0).2 =
      (List.range 3).map Ev.fwd ++
        Ev.bwd 2 :: ((List.range 2).reverse).map Ev.bwd ∧
    (∃ adv, badSaga.adventures.get? 2 = some adv ∧
      revert badSaga.adventures { stupid := true } 2 3 =
        revert badSaga.adventures { stupid := true } 1 (adv.backward 3)) := by
  have h := saga_compensation_starts_at_failing_index badSaga.adventures 0 2
    { error := { stupid := true }, acc := 3 } badSaga_failsAt
  obtain ⟨h1, h2, adv, hget, h3⟩ := h
  exact ⟨h1, h2, adv, hget, h3⟩

/-- Claim C3: when every step's forward operation always succeeds, tell
returns Ok of the composed forward effect of the steps; in particular the
two-step saga adding one twice takes 0 to Ok 2. -/
theorem saga_success_identity :
    (∀ (E T : Type) (saga : List (Adventure E T)) (x : T),
      (∀ adv ∈ saga, ∀ a, ∃ b, adv.forward a = Except.ok b) →
      tell_ saga 0 x = some (Except.ok (fwdEffect saga x))) ∧
    Saga.tell goodSaga 0 = some (Except.ok 2) := by
  constructor
  · intro E T saga x hok
    have h := tell_allOk_aux saga hok saga.length 0 x (by omega)
    simpa using h
  · exact goodSaga_eval

/-- Witness for claim C3 at the always-succeeding doc-example saga. -/
theorem saga_success_identity_witness :
    tell_ docSaga.adventures 0 0 =
      some (Except.ok (fwdEffect docSaga.adventures 0)) :=
  saga_success_identity.1 StupidError Int docSaga.adventures 0 docSaga_allOk

/-- Claim C4: when each step's backward operation exactly inverts its forward
operation (on both the success branch and the failure branch), a failure at
step k yields a final failure accumulator equal to the original input; in
particular the three-step plus-one/minus-one saga failing at index 2 gives
tell 0 = Err
with compensated accumulator 0. -/
theorem saga_roundtrip_cancellation :
    (∀ (E T : Type) (saga : List (Adventure E T)) (x : T) (k : Nat)
      (f : Failure E T), InverseSteps saga → FailsAt saga x k f →
      tell_ saga 0 x = some (Except.error { error := f.error, acc := x })) ∧
    Saga.tell badSaga 0 =
      some (Except.error { error := { stupid := true }, acc := 0 }) := by
  constructor
  · intro E T saga x k f hinv hfail
    have htell := tell_of_failsAt saga x k f hfail
    obtain ⟨a, adv, hrun, hget, hf⟩ := hfail
    have hbw : adv.backward f.acc = a := (hinv k adv hget).2 a f hf
    have hcomp : compFold saga k f.acc = x := by
      refine compFold_inverse saga hinv x k a hrun f.acc ?_
      simp only [backAt, hget]
      exact hbw
    rw [htell, hcomp]
  · exact badSaga_eval

/-- Witness for claim C4 at the bad_sage saga. -/
theorem saga_roundtrip_cancellation_witness :
    tell_ badSaga.adventures 0 0 =
      some (Except.error { error := { stupid := true }, acc := 0 }) :=
  saga_roundtrip_cancellation.1 StupidError Int badSaga.adventures 0 2
    { error := { stupid := true }, acc := 3 } badSaga_inverse badSaga_failsAt

/-- Claim C5: the error inside the failure returned by tell is exactly the
error raised by the failing step's forward operation; compensation carries it
through unchanged, and only the accumulator component differs from the raised
failure. -/
theorem saga_error_transparency (saga : List (Adventure E T)) (acc : T)
    (k : Nat) (f : Failure E T) (h : FailsAt saga acc k f) :
    ∃ g : Failure E T, tell_ saga 0 acc = some (Except.error g) ∧
      g.error = f.error ∧ g.acc = compFold saga k f.acc :=
  ⟨{ error := f.error, acc := compFold saga k f.acc },
    tell_of_failsAt saga acc k f h, rfl, rfl⟩

/-- Witness for claim C5 at the bad_sage saga. -/
theorem saga_error_transparency_witness :
    ∃ g : Failure StupidError Int,
      tell_ badSaga.adventures 0 0 = some (Except.error g) ∧
      g.error = { stupid := true } ∧
      g.acc = compFold badSaga.adventures 2 3 :=
  saga_error_transparency badSaga.adventures 0 2
    { error := { stupid := true }, acc := 3 } badSaga_failsAt

/-- Claim C6: tell returns an error exactly when some step's forward
operation fails during the forward pass; when no forward failure is possible
the result is Ok.  The compensation path never produces an error of its own:
the only error result is the Failure assembled by revert from a forward
failure. -/
theorem saga_err_iff_forward_failure (saga : List (Adventure E T)) (acc : T) :
    ((∃ f, tell_ saga 0 acc = some (Except.error f)) ↔
      (∃ k f, FailsAt saga acc k f)) ∧
    ((∀ k f, ¬ FailsAt saga acc k f) →
      ∃ a, tell_ saga 0 acc = some (Except.ok a)) := by
  constructor
  · constructor
    · rintro ⟨g, hg⟩
      rcases tell_cases saga acc with ⟨a, hrun, htell⟩ | ⟨k, f, hfail, htell⟩
      · rw [htell] at hg
        simp at hg
      · exact ⟨k, f, hfail⟩
    · rintro ⟨k, f, hfail⟩
      exact ⟨_, tell_of_failsAt saga acc k f hfail⟩
  · intro hnone
    rcases tell_cases saga acc with ⟨a, hrun, htell⟩ | ⟨k, f, hfail, htell⟩
    · exact ⟨a, htell⟩
    · exact absurd hfail (hnone k f)

/-- Witness for claim C6 at the bad_sage saga. -/
theorem saga_err_iff_forward_failure_witness :
    ∃ f, tell_ badSaga.adventures 0 (0 : Int) = some (Except.error f) :=
  (saga_err_iff_forward_failure badSaga.adventures 0).1.mpr
    ⟨2, { error := { stupid := true }, acc := 3 }, badSaga_failsAt⟩

/-- Claim C7: a saga with zero steps returns Ok of the initial accumulator
unchanged, invoking no forward and no backward operation (empty trace). -/
theorem saga_empty_tell (E T : Type) (acc : T) :
    Saga.tell (Saga.new ([] : List (Adventure E T))) acc =
      some (Except.ok acc) ∧
    tellT_ ([] : List (Adventure E T)) 0 acc = (some (Except.ok acc), []) := by
  constructor
  · simp only [Saga.tell, Saga.new]
    rw [tell_]
    simp
  · rw [tellT_]
    simp

/-- Claim C8: tell always terminates with a result; the run makes at most n
forward calls, never invokes a step's forward operation twice, and makes at
most n backward calls, each at a distinct index. -/
theorem saga_tell_resource_bounds (saga : List (Adventure E T)) (acc : T) :
    (∃ r, tell_ saga 0 acc = some r) ∧
    ((tellT_ saga 0 acc).2.filterMap Ev.fwdIdx).Nodup ∧
    ((tellT_ saga 0 acc).2.filterMap Ev.fwdIdx).length ≤ saga.length ∧
    ((tellT_ saga 0 acc).2.filterMap Ev.bwdIdx).Nodup ∧
    ((tellT_ saga 0 acc).2.filterMap Ev.bwdIdx).length ≤ saga.length := by
  rcases tell_cases saga acc with ⟨a, hrun, htell⟩ | ⟨k, f, hfail, htell⟩
  · have htr := tellT_success saga saga.length 0 acc a (by omega) hrun
    rw [htr]
    refine ⟨⟨Except.ok a, htell⟩, ?_, ?_, ?_, ?_⟩
    · rw [filterMap_fwdIdx_fwd]
      rw [← List.range_eq_range']
      exact List.nodup_range _
    · rw [filterMap_fwdIdx_fwd]
      simp
    · rw [filterMap_bwdIdx_fwd]
      exact List.nodup_nil
    · rw [filterMap_bwdIdx_fwd]
      simp
  · obtain ⟨a0, adv, hrun0, hget, hf0⟩ := hfail
    have hklt : k < saga.length := lt_of_get? saga hget
    have htr := tellT_of_failsAt saga acc k f ⟨a0, adv, hrun0, hget, hf0⟩
    rw [htr]
    refine ⟨⟨_, tell_of_failsAt saga acc k f ⟨a0, adv, hrun0, hget, hf0⟩⟩,
      ?_, ?_, ?_, ?_⟩
    · simp only [List.filterMap_append, filterMap_fwdIdx_fwd,
        filterMap_fwdIdx_bwd, List.append_nil]
      exact List.nodup_range _
    · simp only [List.filterMap_append, filterMap_fwdIdx_fwd,
        filterMap_fwdIdx_bwd, List.append_nil, List.length_range]
      omega
    · simp only [List.filterMap_append, filterMap_bwdIdx_fwd,
        filterMap_bwdIdx_bwd, List.nil_append]
      rw [List.nodup_reverse]
      exact List.nodup_range _
    · simp only [List.filterMap_append, filterMap_bwdIdx_fwd,
        filterMap_bwdIdx_bwd, List.nil_append, List.length_reverse,
        List.length_range]
      omega

/-- Claim C9: every index used to access the step list stays in bounds: a
full run never reaches the out-of-bounds (none) case, and revert entered at
any index below the list's length never reaches it either. -/
theorem saga_index_safety (saga : List (Adventure E T)) (acc : T) :
    (∃ r, Saga.tell (Saga.new saga) acc = some r) ∧
    (∀ (e : E) (i : Nat) (v : T), i < saga.length →
      ∃ g, revert saga e i v = some g) := by
  constructor
  · have heq : Saga.tell (Saga.new saga) acc = tell_ saga 0 acc := rfl
    rw [heq]
    rcases tell_cases saga acc with ⟨a, hrun, htell⟩ | ⟨k, f, hfail, htell⟩
    · exact ⟨_, htell⟩
    · exact ⟨_, tell_of_failsAt saga acc k f hfail⟩
  · intro e i v hlt
    exact ⟨_, revert_eq saga e i hlt v⟩

/-- Witness for claim C9 at the bad_sage saga, reverting from index 1. -/
theorem saga_index_safety_witness :
    ∃ g, revert badSaga.adventures { stupid := true } 1 (2 : Int) = some g :=
  (saga_index_safety badSaga.adventures 0).2 { stupid := true } 1 2
    (by decide)

/-- Claim C10: tell is deterministic and leaves the saga unchanged: telling
equal sagas with equal initial accumulators yields equal results, so the same
saga value can be told repeatedly with identical outcomes. -/
theorem saga_tell_deterministic (s₁ s₂ : Saga E T) (a₁ a₂ : T)
    (hs : s₁ = s₂) (ha : a₁ = a₂) :
    Saga.tell s₁ a₁ = Saga.tell s₂ a₂ := by
  rw [hs, ha]

/-- Witness for claim C10 at the good_sage saga. -/
theorem saga_tell_deterministic_witness :
    Saga.tell goodSaga 0 = Saga.tell goodSaga 0 :=
  saga_tell_deterministic goodSaga goodSaga 0 0 rfl rfl
